import Mathlib

/-!
Shallow embedding of ghost-core `src/chainparams.h` (network-parameter and
reward-schedule resolver) and proofs about it.

Machine integers: `int`/`int64_t` fields are modelled as `Int`, unsigned
fields as `Nat`.  None of the operations verified here performs arithmetic
that can overflow at the values involved (the widest arithmetic is the reward
formula on 64-bit amounts, far below 2^63), so no explicit wrap-around
modelling is needed.  `uint256` hash values are only stored and compared,
never computed with, and are modelled as `Nat`.
-/

/-- Outcome of a C++ call in the embedding: a returned value, a failed
`assert` (process abort), or undefined behavior (e.g. dereferencing an
invalid iterator). -/
inductive CppResult (α : Type) where
  | ok : α → CppResult α
  | assertFail : CppResult α
  | undefinedBehavior : CppResult α
  deriving DecidableEq

/-- Model of `std::map<int, uint256>` (`MapCheckpoints`): an association list
kept strictly ascending in its key, which is how `std::map` stores entries. -/
structure CCheckpointData where
  mapCheckpoints : List (Int × Nat)
  deriving DecidableEq

/-- `CCheckpointData::GetHeight` from chainparams.h: takes `rbegin()` of
`mapCheckpoints` and dereferences it unconditionally, returning its key.  On a
non-empty map `rbegin()` is the entry with the greatest key, i.e. the last
entry in storage order; on an empty map `rbegin()` equals `rend()` and
dereferencing it is undefined behavior — the source contains no assert and no
emptiness check. -/
def CCheckpointData.GetHeight (d : CCheckpointData) : CppResult Int :=
  match d.mapCheckpoints.getLast? with
  | some final_checkpoint => .ok final_checkpoint.1
  | none => .undefinedBehavior

/-- `std::map::insert` on the ascending association list: inserts the pair at
its key position, keeping an already-present key unchanged. -/
def mapInsert (k : Int) (v : Nat) : List (Int × Nat) → List (Int × Nat)
  | [] => [(k, v)]
  | e :: rest =>
    if k < e.1 then (k, v) :: e :: rest
    else if k = e.1 then e :: rest
    else e :: mapInsert k v rest

/-- Building a `std::map` by inserting entries one at a time, in the given
order, starting from the empty map. -/
def buildMap (l : List (Int × Nat)) : List (Int × Nat) :=
  l.foldl (fun m e => mapInsert e.1 e.2 m) []

/-- Keys strictly ascending: the `std::map` storage invariant, and also the
registration-order invariant of the treasury-fund sequence. -/
def keyAscending {β : Type} (l : List (Int × β)) : Prop :=
  l.Pairwise (fun a b => a.1 < b.1)

theorem mapInsert_mem {l : List (Int × Nat)} {x : Int × Nat} {k : Int} {v : Nat}
    (hx : x ∈ mapInsert k v l) : x = (k, v) ∨ x ∈ l := by
  induction l with
  | nil =>
    simp [mapInsert] at hx
    exact Or.inl hx
  | cons e t ih =>
    by_cases h1 : k < e.1
    · rw [show mapInsert k v (e :: t) = (k, v) :: e :: t from by
        simp [mapInsert, h1]] at hx
      rcases List.mem_cons.mp hx with h | h
      · exact Or.inl h
      · exact Or.inr h
    · by_cases h2 : k = e.1
      · rw [show mapInsert k v (e :: t) = e :: t from by
          simp [mapInsert, h1, h2]] at hx
        exact Or.inr hx
      · rw [show mapInsert k v (e :: t) = e :: mapInsert k v t from by
          simp [mapInsert, h1, h2]] at hx
        rcases List.mem_cons.mp hx with h | h
        · exact Or.inr (by simp [h])
        · rcases ih h with hx' | hx'
          · exact Or.inl hx'
          · exact Or.inr (List.mem_cons_of_mem _ hx')

theorem keys_mapInsert (l : List (Int × Nat)) (k : Int) (v : Nat) (a : Int) :
    a ∈ (mapInsert k v l).map Prod.fst ↔ a = k ∨ a ∈ l.map Prod.fst := by
  induction l with
  | nil => simp [mapInsert]
  | cons e t ih =>
    by_cases h1 : k < e.1
    · rw [show mapInsert k v (e :: t) = (k, v) :: e :: t from by
        simp [mapInsert, h1]]
      simp only [List.map_cons, List.mem_cons]
    · by_cases h2 : k = e.1
      · subst h2
        rw [show mapInsert e.1 v (e :: t) = e :: t from by
          simp [mapInsert]]
        simp only [List.map_cons, List.mem_cons]
        tauto
      · rw [show mapInsert k v (e :: t) = e :: mapInsert k v t from by
          simp [mapInsert, h1, h2]]
        simp only [List.map_cons, List.mem_cons, ih]
        tauto

theorem mapInsert_keyAscending {l : List (Int × Nat)} (h : keyAscending l)
    (k : Int) (v : Nat) : keyAscending (mapInsert k v l) := by
  induction l with
  | nil => simp [mapInsert, keyAscending]
  | cons e t ih =>
    rw [keyAscending, List.pairwise_cons] at h
    obtain ⟨he, ht⟩ := h
    by_cases h1 : k < e.1
    · show List.Pairwise _ (mapInsert k v (e :: t))
      simp only [mapInsert, if_pos h1]
      rw [List.pairwise_cons]
      constructor
      · intro x hx
        rcases hx with _ | hx
        · exact h1
        · exact lt_trans h1 (he x (by assumption))
      · rw [List.pairwise_cons]
        exact ⟨he, ht⟩
    · by_cases h2 : k = e.1
      · show List.Pairwise _ (mapInsert k v (e :: t))
        simp only [mapInsert, if_neg h1, if_pos h2]
        rw [List.pairwise_cons]
        exact ⟨he, ht⟩
      · show List.Pairwise _ (mapInsert k v (e :: t))
        simp only [mapInsert, if_neg h1, if_neg h2]
        rw [List.pairwise_cons]
        constructor
        · intro x hx
          rcases mapInsert_mem hx with hx' | hx'
          · subst hx'
            omega
          · exact he x hx'
        · exact ih ht

theorem buildMapAux_keyAscending (l : List (Int × Nat)) :
    ∀ acc : List (Int × Nat), keyAscending acc →
      keyAscending (l.foldl (fun m e => mapInsert e.1 e.2 m) acc) := by
  induction l with
  | nil => intro acc hacc; simpa using hacc
  | cons e t ih =>
    intro acc hacc
    rw [List.foldl_cons]
    exact ih _ (mapInsert_keyAscending hacc e.1 e.2)

theorem buildMapAux_keys (l : List (Int × Nat)) :
    ∀ (acc : List (Int × Nat)) (a : Int),
      (a ∈ (l.foldl (fun m e => mapInsert e.1 e.2 m) acc).map Prod.fst ↔
        a ∈ acc.map Prod.fst ∨ a ∈ l.map Prod.fst) := by
  induction l with
  | nil => intro acc a; simp
  | cons e t ih =>
    intro acc a
    rw [List.foldl_cons, ih, keys_mapInsert]
    simp only [List.map_cons, List.mem_cons]
    tauto

theorem keyAscending_getLast_max {β : Type} :
    ∀ (l : List (Int × β)), keyAscending l →
      ∀ e, l.getLast? = some e → e ∈ l ∧ ∀ x ∈ l, x.1 ≤ e.1 := by
  intro l
  induction l with
  | nil => intro _ e he; simp at he
  | cons a t ih =>
    intro h e he
    rw [keyAscending, List.pairwise_cons] at h
    obtain ⟨ha, ht⟩ := h
    cases t with
    | nil =>
      simp at he
      subst he
      simp
    | cons b t' =>
      rw [List.getLast?_cons_cons] at he
      obtain ⟨hmem, hmax⟩ := ih ht e he
      refine ⟨List.mem_cons_of_mem _ hmem, ?_⟩
      intro x hx
      rcases List.mem_cons.mp hx with hx' | hx'
      · subst hx'
        exact le_of_lt (ha e hmem)
      · exact hmax x hx'

theorem keyAscending_key_inj {β : Type} :
    ∀ (l : List (Int × β)), keyAscending l →
      ∀ x ∈ l, ∀ y ∈ l, x.1 = y.1 → x = y := by
  intro l
  induction l with
  | nil => intro _ x hx; simp at hx
  | cons a t ih =>
    intro h x hx y hy hxy
    rw [keyAscending, List.pairwise_cons] at h
    obtain ⟨ha, ht⟩ := h
    rcases List.mem_cons.mp hx with hx' | hx' <;>
      rcases List.mem_cons.mp hy with hy' | hy'
    · rw [hx', hy']
    · subst hx'
      exact absurd hxy (ne_of_lt (ha y hy'))
    · subst hy'
      exact absurd hxy.symm (ne_of_lt (ha x hx'))
    · exact ih ht x hx' y hy' hxy

/-- C1 (counterexample): the claim says that on an empty checkpoint table
`GetHeight()` asserts/aborts loudly.  It does not: the source has no assert in
`GetHeight` — it dereferences `rbegin()` of the empty map, which is undefined
behavior, not a detected failure. -/
theorem checkpoint_getHeight_empty_no_assert :
    ¬ (CCheckpointData.GetHeight ⟨[]⟩ = CppResult.assertFail) := by
  decide

/-- C1 (amended): on an empty checkpoint table `GetHeight()` unconditionally
dereferences the reverse-begin iterator of the empty `mapCheckpoints`, which is
undefined behavior; the empty case is neither checked nor detected by an
assert. -/
theorem checkpoint_getHeight_empty_undefined :
    CCheckpointData.GetHeight ⟨[]⟩ = CppResult.undefinedBehavior := rfl

/-- C9: on any non-empty checkpoint table — built by inserting the given
entries in any order — `GetHeight()` returns the maximum height key. -/
theorem checkpoint_getHeight_is_max (l : List (Int × Nat)) (hne : l ≠ []) :
    CCheckpointData.GetHeight ⟨buildMap l⟩ =
      CppResult.ok ((l.map Prod.fst).maximum.unbot' 0) := by
  have hasc : keyAscending (buildMap l) :=
    buildMapAux_keyAscending l [] (by simp [keyAscending])
  have hkeys : ∀ a : Int, a ∈ (buildMap l).map Prod.fst ↔ a ∈ l.map Prod.fst := by
    intro a
    have := buildMapAux_keys l [] a
    simpa [buildMap] using this
  obtain ⟨e, he⟩ := List.exists_mem_of_ne_nil l hne
  have hbne : buildMap l ≠ [] := by
    intro hnil
    have : e.1 ∈ (buildMap l).map Prod.fst :=
      (hkeys e.1).mpr (List.mem_map_of_mem Prod.fst he)
    rw [hnil] at this
    simp at this
  obtain ⟨m, hm⟩ : ∃ m, (buildMap l).getLast? = some m := by
    cases h : (buildMap l).getLast? with
    | none => exact absurd (List.getLast?_eq_none_iff.mp h) hbne
    | some m => exact ⟨m, rfl⟩
  obtain ⟨hmem, hmax⟩ := keyAscending_getLast_max _ hasc m hm
  have hmaximum : (l.map Prod.fst).maximum = (m.1 : WithBot Int) := by
    rw [List.maximum_eq_coe_iff]
    constructor
    · exact (hkeys m.1).mp (List.mem_map_of_mem Prod.fst hmem)
    · intro b hb
      obtain ⟨x, hx, hxb⟩ := List.mem_map.mp ((hkeys b).mpr hb)
      rw [← hxb]
      exact hmax x hx
  rw [hmaximum]
  simp [CCheckpointData.GetHeight, hm, WithBot.unbot'_coe]

/-- C9 (witness): a table with heights 100, 500, 250 inserted in that order
yields `GetHeight() = 500`. -/
theorem checkpoint_getHeight_is_max_witness :
    ([((100 : Int), (1 : Nat)), (500, 2), (250, 3)] ≠
        ([] : List (Int × Nat))) ∧
      CCheckpointData.GetHeight
          ⟨buildMap [((100 : Int), (1 : Nat)), (500, 2), (250, 3)]⟩ =
        CppResult.ok 500 := by
  constructor
  · decide
  · have h := checkpoint_getHeight_is_max
      [((100 : Int), (1 : Nat)), (500, 2), (250, 3)] (by decide)
    rw [h]
    decide

/-- `Consensus::Params` (consensus/params.h is outside this header): carried
opaquely by `CChainParams`; only the one field this header reads is kept. -/
structure ConsensusParams where
  fPowNoRetargeting : Bool
  deriving DecidableEq

/-- `TreasuryFundSettings` from chainparams.h. -/
structure TreasuryFundSettings where
  sTreasuryFundAddresses : String
  nMinTreasuryStakePercent : Int
  nTreasuryOutputPeriod : Int
  deriving DecidableEq

/-- The fields of `CChainParams` (chainparams.h) that the verified operations
touch.  `nBlockPerc` is `std::array<int, 47>`, modelled as a total function on
`Fin 47` so the 47-entry size is part of the type.  The anon-output blacklist
`std::set<std::uint64_t>` is modelled as `Finset Nat` (indices are only stored
and compared, never computed with). -/
structure CChainParams where
  consensus : ConsensusParams
  nDefaultPort : Int
  nTargetSpacing : Nat
  nTargetTimespan : Nat
  nBlockReward : Int
  nStakeTimestampMask : Nat
  nCoinYearReward : Int
  nBlockPerc : Fin 47 → Int
  anonRestricted : Bool
  anonRecoveryAddress : String
  anonMaxOutputSize : Nat
  vTreasuryFundSettings : List (Int × TreasuryFundSettings)
  strNetworkID : String
  checkpointData : CCheckpointData
  blacklistedAnonTxs : Finset Nat

/-- `CChainParams::SetCoinYearReward` from chainparams.h:
`assert(strNetworkID == "regtest"); nCoinYearReward = nCoinYearReward_;`.
A failed assert aborts the process, so no mutated state exists. -/
def CChainParams.SetCoinYearReward (p : CChainParams) (nCoinYearReward_ : Int) :
    CppResult CChainParams :=
  if p.strNetworkID = "regtest" then
    .ok { p with nCoinYearReward := nCoinYearReward_ }
  else .assertFail

/-- `CChainParams::SetBlockReward` from chainparams.h:
`assert(strNetworkID == "regtest"); nBlockReward = nBlockReward_;`. -/
def CChainParams.SetBlockReward (p : CChainParams) (nBlockReward_ : Int) :
    CppResult CChainParams :=
  if p.strNetworkID = "regtest" then
    .ok { p with nBlockReward := nBlockReward_ }
  else .assertFail

/-- `CChainParams::GetConsensus_nc` from chainparams.h:
`assert(strNetworkID == "regtest"); return consensus;` (a mutable handle to
the consensus constants, only ever reached on regtest). -/
def CChainParams.GetConsensus_nc (p : CChainParams) : CppResult ConsensusParams :=
  if p.strNetworkID = "regtest" then .ok p.consensus else .assertFail

/-- `CChainParams::GetBlacklistedAnonOutputs` from chainparams.h:
`return blacklistedAnonTxs;` — returns the set by value, i.e. a copy. -/
def CChainParams.GetBlacklistedAnonOutputs (p : CChainParams) : Finset Nat :=
  p.blacklistedAnonTxs

/-- `CChainParams::IsBlacklistedAnonOutput` from chainparams.h:
`return blacklistedAnonTxs.count(index);` — a `std::set` count is 0 or 1 and
converts to `bool` as membership. -/
def CChainParams.IsBlacklistedAnonOutput (p : CChainParams) (index : Nat) : Bool :=
  decide (index ∈ p.blacklistedAnonTxs)

/-- `CChainParams::SetBlacklistedAnonOutput` from chainparams.h:
`blacklistedAnonTxs = anonIndexes;`. -/
def CChainParams.SetBlacklistedAnonOutput (p : CChainParams)
    (anonIndexes : Finset Nat) : CChainParams :=
  { p with blacklistedAnonTxs := anonIndexes }

/-- Sample parameter set used as concrete input for witnesses.  The concrete
field contents are irrelevant to every theorem; only `strNetworkID` is
inspected by the claims exercised on it. -/
def baseParams (network : String) : CChainParams where
  consensus := ⟨false⟩
  nDefaultPort := 51728
  nTargetSpacing := 120
  nTargetTimespan := 960
  nBlockReward := 600000000
  nStakeTimestampMask := 15
  nCoinYearReward := 2000000
  nBlockPerc := fun _ => 12
  anonRestricted := true
  anonRecoveryAddress := ""
  anonMaxOutputSize := 2
  vTreasuryFundSettings := []
  strNetworkID := network
  checkpointData := ⟨[]⟩
  blacklistedAnonTxs := ∅

/-- C7: each regtest-only mutator (`SetCoinYearReward`, `SetBlockReward`,
`GetConsensus_nc`) asserts `strNetworkID == "regtest"`; on a parameter set
whose network identity is anything else the call fails the assert, and no
mutated state results. -/
theorem regtest_mutators_assert_on_non_regtest (p : CChainParams) (v w : Int)
    (h : p.strNetworkID ≠ "regtest") :
    p.SetCoinYearReward v = CppResult.assertFail ∧
      p.SetBlockReward w = CppResult.assertFail ∧
      p.GetConsensus_nc = CppResult.assertFail := by
  refine ⟨?_, ?_, ?_⟩ <;>
    simp [CChainParams.SetCoinYearReward, CChainParams.SetBlockReward,
      CChainParams.GetConsensus_nc, h]

/-- C7 (witness): on the "main" parameter set all three regtest-only mutators
fail their assert. -/
theorem regtest_mutators_assert_witness :
    (baseParams "main").strNetworkID ≠ "regtest" ∧
      ((baseParams "main").SetCoinYearReward 5 = CppResult.assertFail ∧
        (baseParams "main").SetBlockReward 7 = CppResult.assertFail ∧
        (baseParams "main").GetConsensus_nc = CppResult.assertFail) :=
  ⟨by decide, regtest_mutators_assert_on_non_regtest (baseParams "main") 5 7
    (by decide)⟩

/-- C10: the blacklist accessors round-trip.  After
`SetBlacklistedAnonOutput(s)`, `IsBlacklistedAnonOutput(i)` is true exactly
for `i ∈ s`, `GetBlacklistedAnonOutputs()` returns (a copy of) exactly `s`,
and every other field of the parameter set is unchanged. -/
theorem blacklist_accessors_roundtrip (p : CChainParams) (s : Finset Nat)
    (i : Nat) :
    ((p.SetBlacklistedAnonOutput s).IsBlacklistedAnonOutput i = true ↔ i ∈ s) ∧
      (p.SetBlacklistedAnonOutput s).GetBlacklistedAnonOutputs = s ∧
      (p.SetBlacklistedAnonOutput s).consensus = p.consensus ∧
      (p.SetBlacklistedAnonOutput s).nDefaultPort = p.nDefaultPort ∧
      (p.SetBlacklistedAnonOutput s).nTargetSpacing = p.nTargetSpacing ∧
      (p.SetBlacklistedAnonOutput s).nTargetTimespan = p.nTargetTimespan ∧
      (p.SetBlacklistedAnonOutput s).nBlockReward = p.nBlockReward ∧
      (p.SetBlacklistedAnonOutput s).nStakeTimestampMask =
        p.nStakeTimestampMask ∧
      (p.SetBlacklistedAnonOutput s).nCoinYearReward = p.nCoinYearReward ∧
      (p.SetBlacklistedAnonOutput s).nBlockPerc = p.nBlockPerc ∧
      (p.SetBlacklistedAnonOutput s).anonRestricted = p.anonRestricted ∧
      (p.SetBlacklistedAnonOutput s).anonRecoveryAddress =
        p.anonRecoveryAddress ∧
      (p.SetBlacklistedAnonOutput s).anonMaxOutputSize = p.anonMaxOutputSize ∧
      (p.SetBlacklistedAnonOutput s).vTreasuryFundSettings =
        p.vTreasuryFundSettings ∧
      (p.SetBlacklistedAnonOutput s).strNetworkID = p.strNetworkID ∧
      (p.SetBlacklistedAnonOutput s).checkpointData = p.checkpointData := by
  refine ⟨?_, rfl, rfl, rfl, rfl, rfl, rfl, rfl, rfl, rfl, rfl, rfl, rfl,
    rfl, rfl, rfl⟩
  simp [CChainParams.IsBlacklistedAnonOutput, CChainParams.SetBlacklistedAnonOutput]

/-- Modelled from the spec: the body of `CChainParams::GetCoinYearPercent` is
in chainparams.cpp, which is not under src/ (the header only declares it).
Spec §3/§4.1: the 47-entry `nBlockPerc` table is indexed by year since
genesis, and an out-of-range year clamps to the last entry (index 46). -/
def CChainParams.GetCoinYearPercent (p : CChainParams) (year : Nat) : Int :=
  if h : year < 47 then p.nBlockPerc ⟨year, h⟩ else p.nBlockPerc ⟨46, by omega⟩

/-- Modelled from the spec: blocks per year is derived from the target block
spacing (`blocks_per_year` derives from `target_spacing`, spec §4.1), i.e.
seconds per year divided by `nTargetSpacing`. -/
def CChainParams.blocksPerYear (p : CChainParams) : Nat :=
  (365 * 24 * 60 * 60) / p.nTargetSpacing

/-- Modelled from the spec: `year = floor(height / blocks_per_year)`
(spec §4.1 year derivation). -/
def CChainParams.yearOfHeight (p : CChainParams) (nHeight : Nat) : Nat :=
  nHeight / p.blocksPerYear

/-- Modelled from the spec: the body of
`CChainParams::GetProofOfStakeRewardAtYear` is in chainparams.cpp, absent from
src/.  Spec §4.1: reward = `base_reward * (1 + year_percent/100)` in integer
minor units, i.e. `nBlockReward * (100 + percent) / 100` with C++ `int64_t`
division truncating toward zero (`Int.tdiv`). -/
def CChainParams.GetProofOfStakeRewardAtYear (p : CChainParams) (year : Nat) :
    Int :=
  (p.nBlockReward * (100 + p.GetCoinYearPercent year)).tdiv 100

/-- Modelled from the spec: the body of
`CChainParams::GetProofOfStakeRewardAtHeight` is in chainparams.cpp, absent
from src/.  Spec §4.1: the height-based path derives the year from the height
and resolves the reward for that year. -/
def CChainParams.GetProofOfStakeRewardAtHeight (p : CChainParams)
    (nHeight : Nat) : Int :=
  p.GetProofOfStakeRewardAtYear (p.yearOfHeight nHeight)

/-- C2: the reward-percentage table has exactly 47 entries (its type is
`Fin 47 → Int`, the model of `std::array<int, 47>`), and for any year at or
beyond the end of the table `GetCoinYearPercent` — and the year-based reward
built on it — uses the last entry (index 46) instead of indexing out of
bounds. -/
theorem coinYearPercent_clamps_to_last (p : CChainParams) (year : Nat)
    (h : 47 ≤ year) :
    p.GetCoinYearPercent year = p.nBlockPerc ⟨46, by omega⟩ ∧
      p.GetProofOfStakeRewardAtYear year = p.GetProofOfStakeRewardAtYear 46 := by
  have h1 : ¬ year < 47 := by omega
  constructor
  · rw [CChainParams.GetCoinYearPercent, dif_neg h1]
  · rw [CChainParams.GetProofOfStakeRewardAtYear,
      CChainParams.GetProofOfStakeRewardAtYear,
      CChainParams.GetCoinYearPercent, CChainParams.GetCoinYearPercent,
      dif_neg h1, dif_pos (by omega : (46 : Nat) < 47)]

/-- C2 (witness): at year 100 the percentage and the year-based reward on the
sample "main" parameter set clamp to entry 46. -/
theorem coinYearPercent_clamps_witness :
    47 ≤ 100 ∧
      ((baseParams "main").GetCoinYearPercent 100 =
          (baseParams "main").nBlockPerc ⟨46, by omega⟩ ∧
        (baseParams "main").GetProofOfStakeRewardAtYear 100 =
          (baseParams "main").GetProofOfStakeRewardAtYear 46) :=
  ⟨by omega, coinYearPercent_clamps_to_last (baseParams "main") 100 (by omega)⟩

/-- C3: for every height, the height-based reward path agrees exactly with the
year-based path at the year derived from the height
(`floor(height / blocks_per_year)`). -/
theorem stakeReward_height_year_agree (p : CChainParams) (nHeight : Nat) :
    p.GetProofOfStakeRewardAtHeight nHeight =
      p.GetProofOfStakeRewardAtYear (nHeight / p.blocksPerYear) := rfl

/-- Modelled from the spec: the body of
`CChainParams::PushTreasuryFundSettings` is in chainparams.cpp, absent from
src/.  Spec §4.2: insertion enforces strict time ordering — an insert whose
`effective_time` is ≤ an already-registered timestamp is rejected (returns
`false`, does not throw) with the registry untouched; otherwise the entry is
appended and `true` is returned.  The C++ `bool` result is paired with the
(possibly updated) parameter set. -/
def CChainParams.PushTreasuryFundSettings (p : CChainParams) (time_from : Int)
    (settings : TreasuryFundSettings) : Bool × CChainParams :=
  if p.vTreasuryFundSettings.any (fun e => decide (time_from ≤ e.1)) then
    (false, p)
  else
    (true, { p with
      vTreasuryFundSettings :=
        p.vTreasuryFundSettings ++ [(time_from, settings)] })

/-- C4: `PushTreasuryFundSettings` returns `false` — leaving the stored
sequence completely unchanged — whenever `time_from` is ≤ the
`effective_time` of an already-registered entry, and (consequently) it keeps
the sequence strictly ascending in `effective_time`. -/
theorem pushTreasury_rejects_le_and_keeps_ascending (p : CChainParams)
    (t : Int) (s : TreasuryFundSettings) :
    ((∃ e ∈ p.vTreasuryFundSettings, t ≤ e.1) →
        p.PushTreasuryFundSettings t s = (false, p)) ∧
      (keyAscending p.vTreasuryFundSettings →
        keyAscending (p.PushTreasuryFundSettings t s).2.vTreasuryFundSettings) := by
  constructor
  · rintro ⟨e, he, hle⟩
    have hany : p.vTreasuryFundSettings.any (fun e => decide (t ≤ e.1)) = true :=
      List.any_eq_true.mpr ⟨e, he, by simpa using hle⟩
    simp [CChainParams.PushTreasuryFundSettings, hany]
  · intro hasc
    by_cases hany : p.vTreasuryFundSettings.any (fun e => decide (t ≤ e.1)) = true
    · simp [CChainParams.PushTreasuryFundSettings, hany, hasc]
    · have hall : ∀ e ∈ p.vTreasuryFundSettings, e.1 < t := by
        intro e he
        by_contra hcon
        exact hany (List.any_eq_true.mpr ⟨e, he, by simpa using not_lt.mp hcon⟩)
      rw [show (p.PushTreasuryFundSettings t s).2 = { p with
          vTreasuryFundSettings :=
            p.vTreasuryFundSettings ++ [(t, s)] } from by
        simp [CChainParams.PushTreasuryFundSettings, hany]]
      rw [keyAscending] at hasc ⊢
      rw [List.pairwise_append]
      refine ⟨hasc, List.pairwise_singleton _ _, ?_⟩
      intro a ha b hb
      rw [List.mem_singleton] at hb
      subst hb
      exact hall a ha

/-- Sample treasury settings for witnesses. -/
def sampleTreasury : TreasuryFundSettings where
  sTreasuryFundAddresses := "GhostFundAddrA"
  nMinTreasuryStakePercent := 10
  nTreasuryOutputPeriod := 50

/-- A second sample treasury settings value for witnesses. -/
def sampleTreasuryB : TreasuryFundSettings where
  sTreasuryFundAddresses := "GhostFundAddrB"
  nMinTreasuryStakePercent := 20
  nTreasuryOutputPeriod := 60

/-- Sample parameter set with one treasury entry registered at time 100. -/
def treasuryParams : CChainParams :=
  { baseParams "main" with vTreasuryFundSettings := [(100, sampleTreasury)] }

/-- C4 (witness): pushing at timestamp 100 onto a registry already holding an
entry at 100 fails and leaves the registry unchanged, and the result is still
strictly ascending. -/
theorem pushTreasury_rejects_witness :
    (∃ e ∈ treasuryParams.vTreasuryFundSettings, (100 : Int) ≤ e.1) ∧
      treasuryParams.PushTreasuryFundSettings 100 sampleTreasuryB =
        (false, treasuryParams) ∧
      keyAscending
        (treasuryParams.PushTreasuryFundSettings 100
          sampleTreasuryB).2.vTreasuryFundSettings := by
  have hex : ∃ e ∈ treasuryParams.vTreasuryFundSettings, (100 : Int) ≤ e.1 :=
    ⟨(100, sampleTreasury), by simp [treasuryParams], le_refl _⟩
  have hasc : keyAscending treasuryParams.vTreasuryFundSettings := by
    simp [treasuryParams, keyAscending]
  exact ⟨hex,
    (pushTreasury_rejects_le_and_keeps_ascending treasuryParams 100
      sampleTreasuryB).1 hex,
    (pushTreasury_rejects_le_and_keeps_ascending treasuryParams 100
      sampleTreasuryB).2 hasc⟩

/-- Modelled from the spec: the body of
`CChainParams::GetTreasuryFundSettings` is in chainparams.cpp, absent from
src/.  Spec §4.2: at a timestamp, the lookup returns the registered settings
whose `effective_time` is the greatest value ≤ that timestamp, and none if no
entry qualifies.  On the time-ascending sequence that is the last entry whose
time is ≤ the timestamp. -/
def CChainParams.GetTreasuryFundSettingsAtTime (p : CChainParams)
    (nTime : Int) : Option TreasuryFundSettings :=
  ((p.vTreasuryFundSettings.filter (fun e => decide (e.1 ≤ nTime))).getLast?).map
    Prod.snd

/-- Modelled from the spec: the C++ method takes a height; the
height→timestamp conversion comes from the chain's block-time model supplied
by the caller/consensus layer (spec §4.2), so it is a parameter here. -/
def CChainParams.GetTreasuryFundSettingsAtHeight (heightToTime : Nat → Int)
    (p : CChainParams) (nHeight : Nat) : Option TreasuryFundSettings :=
  p.GetTreasuryFundSettingsAtTime (heightToTime nHeight)

theorem treasuryAtTime_spec (p : CChainParams)
    (hasc : keyAscending p.vTreasuryFundSettings) (t : Int) :
    (∀ s, p.GetTreasuryFundSettingsAtTime t = some s →
        ∃ te, (te, s) ∈ p.vTreasuryFundSettings ∧ te ≤ t ∧
          ∀ e ∈ p.vTreasuryFundSettings, e.1 ≤ t → e.1 ≤ te) ∧
      (p.GetTreasuryFundSettingsAtTime t = none →
        ∀ e ∈ p.vTreasuryFundSettings, t < e.1) ∧
      (∀ e ∈ p.vTreasuryFundSettings, e.1 ≤ t →
        (∀ e' ∈ p.vTreasuryFundSettings, e'.1 ≤ t → e'.1 ≤ e.1) →
        p.GetTreasuryFundSettingsAtTime t = some e.2) := by
  have hLasc : keyAscending
      (p.vTreasuryFundSettings.filter (fun e => decide (e.1 ≤ t))) :=
    List.Pairwise.sublist (List.filter_sublist _) hasc
  have hmemL : ∀ e : Int × TreasuryFundSettings,
      e ∈ p.vTreasuryFundSettings.filter (fun e => decide (e.1 ≤ t)) ↔
        e ∈ p.vTreasuryFundSettings ∧ e.1 ≤ t := by
    intro e
    rw [List.mem_filter]
    simp
  refine ⟨?_, ?_, ?_⟩
  · intro s hs
    rw [CChainParams.GetTreasuryFundSettingsAtTime] at hs
    cases hL : (p.vTreasuryFundSettings.filter
        (fun e => decide (e.1 ≤ t))).getLast? with
    | none => rw [hL] at hs; simp at hs
    | some m =>
      rw [hL] at hs
      simp only [Option.map_some'] at hs
      obtain ⟨hmm, hmax⟩ := keyAscending_getLast_max _ hLasc m hL
      obtain ⟨hmv, hmt⟩ := (hmemL m).mp hmm
      have hs' : m.2 = s := Option.some.inj hs
      subst hs'
      refine ⟨m.1, ?_, hmt, ?_⟩
      · rw [Prod.mk.eta]
        exact hmv
      · intro e hev het
        exact hmax e ((hmemL e).mpr ⟨hev, het⟩)
  · intro hnone e hev
    rw [CChainParams.GetTreasuryFundSettingsAtTime] at hnone
    by_contra hcon
    have heL : e ∈ p.vTreasuryFundSettings.filter (fun e => decide (e.1 ≤ t)) :=
      (hmemL e).mpr ⟨hev, not_lt.mp hcon⟩
    cases hL : (p.vTreasuryFundSettings.filter
        (fun e => decide (e.1 ≤ t))).getLast? with
    | none =>
      rw [List.getLast?_eq_none_iff.mp hL] at heL
      simp at heL
    | some m =>
      rw [hL] at hnone
      simp at hnone
  · intro e hev het hgreatest
    have heL : e ∈ p.vTreasuryFundSettings.filter (fun e => decide (e.1 ≤ t)) :=
      (hmemL e).mpr ⟨hev, het⟩
    rw [CChainParams.GetTreasuryFundSettingsAtTime]
    cases hL : (p.vTreasuryFundSettings.filter
        (fun e => decide (e.1 ≤ t))).getLast? with
    | none =>
      rw [List.getLast?_eq_none_iff.mp hL] at heL
      simp at heL
    | some m =>
      obtain ⟨hmm, hmax⟩ := keyAscending_getLast_max _ hLasc m hL
      obtain ⟨hmv, hmt⟩ := (hmemL m).mp hmm
      have h1 : m.1 ≤ e.1 := hgreatest m hmv hmt
      have h2 : e.1 ≤ m.1 := hmax e heL
      have hem : e = m :=
        keyAscending_key_inj _ hasc e hev m hmv (le_antisymm h2 h1)
      rw [Option.map_some']
      rw [hem]

/-- C5: on a strictly ascending registry, the treasury lookup at a height
returns the entry whose `effective_time` is the greatest value ≤ the
timestamp corresponding to that height, returns none when no entry is at or
before that point, and returns exactly the entry registered at a timestamp
when queried at that timestamp. -/
theorem treasuryLookup_greatest_le (heightToTime : Nat → Int)
    (p : CChainParams) (hasc : keyAscending p.vTreasuryFundSettings)
    (nHeight : Nat) :
    (∀ s, CChainParams.GetTreasuryFundSettingsAtHeight heightToTime p nHeight =
          some s →
        ∃ te, (te, s) ∈ p.vTreasuryFundSettings ∧ te ≤ heightToTime nHeight ∧
          ∀ e ∈ p.vTreasuryFundSettings,
            e.1 ≤ heightToTime nHeight → e.1 ≤ te) ∧
      (CChainParams.GetTreasuryFundSettingsAtHeight heightToTime p nHeight =
          none →
        ∀ e ∈ p.vTreasuryFundSettings, heightToTime nHeight < e.1) ∧
      (∀ e ∈ p.vTreasuryFundSettings, e.1 ≤ heightToTime nHeight →
        (∀ e' ∈ p.vTreasuryFundSettings,
          e'.1 ≤ heightToTime nHeight → e'.1 ≤ e.1) →
        CChainParams.GetTreasuryFundSettingsAtHeight heightToTime p nHeight =
          some e.2) :=
  treasuryAtTime_spec p hasc (heightToTime nHeight)

/-- Sample parameter set with treasury entries registered at times 100 and
200. -/
def treasuryParamsB : CChainParams :=
  { baseParams "main" with
    vTreasuryFundSettings := [(100, sampleTreasury), (200, sampleTreasuryB)] }

/-- C5 (witness): with entries at times 100 and 200 and the identity
block-time model, querying at height 200 (timestamp 200) returns the entry
registered at 200. -/
theorem treasuryLookup_witness :
    keyAscending treasuryParamsB.vTreasuryFundSettings ∧
      CChainParams.GetTreasuryFundSettingsAtHeight (fun h => (h : Int))
          treasuryParamsB 200 =
        some sampleTreasuryB := by
  have hasc : keyAscending treasuryParamsB.vTreasuryFundSettings := by
    rw [show treasuryParamsB.vTreasuryFundSettings =
        [(100, sampleTreasury), (200, sampleTreasuryB)] from rfl]
    rw [keyAscending]
    norm_num [List.pairwise_cons]
  refine ⟨hasc, ?_⟩
  refine (treasuryLookup_greatest_le (fun h => (h : Int)) treasuryParamsB hasc
      200).2.2 (200, sampleTreasuryB) ?_ ?_ ?_
  · rw [show treasuryParamsB.vTreasuryFundSettings =
        [(100, sampleTreasury), (200, sampleTreasuryB)] from rfl]
    simp
  · norm_num
  · intro e' he'
    rw [show treasuryParamsB.vTreasuryFundSettings =
        [(100, sampleTreasury), (200, sampleTreasuryB)] from rfl] at he'
    rcases List.mem_cons.mp he' with rfl | he''
    · norm_num
    · rw [List.mem_singleton] at he''
      subst he''
      norm_num

/-- The network names with a parameter set; spec §3: one per supported
network (`main`, `test`, `regtest`). -/
def supportedChains : List String := ["main", "test", "regtest"]

/-- Modelled from the spec: the body of `CreateChainParams` is in
chainparams.cpp, absent from src/.  It builds the parameter set for a
supported network name and throws std::runtime_error for an unknown one
(header doc: "@throws a std::runtime_error if the chain is not supported").
The concrete per-network contents are irrelevant to the selection logic
verified here. -/
def CreateChainParams (chain : String) : Except String CChainParams :=
  if chain ∈ supportedChains then .ok (baseParams chain)
  else .error "Unknown chain"

/-- The process-wide selection state: the single active parameter-set
pointer, unset before the first successful `SelectParams`. -/
structure GlobalState where
  globalChainParams : Option CChainParams

/-- Modelled from the spec: the body of `SelectParams` is in chainparams.cpp,
absent from src/.  Spec §4.6/§8: on a supported name it installs that
network's parameter set as the active one; on an unknown name the
unsupported-network error propagates before any assignment, leaving the
previously active set unchanged.  The thrown error is returned alongside the
resulting global state. -/
def SelectParams (g : GlobalState) (chain : String) :
    Except String Unit × GlobalState :=
  match CreateChainParams chain with
  | .ok p => (.ok (), ⟨some p⟩)
  | .error e => (.error e, g)

/-- Modelled from the spec: `Params()` returns the active parameter set and
"fails loudly (assert/panic) if queried before selection" (spec §4.6); the
header declares it in chainparams.cpp. -/
def Params (g : GlobalState) : CppResult CChainParams :=
  match g.globalChainParams with
  | some p => .ok p
  | none => .assertFail

/-- Modelled from the spec: `pParams()` exposes the active parameter-set
pointer itself (null before selection). -/
def pParams (g : GlobalState) : Option CChainParams :=
  g.globalChainParams

/-- C6: selecting an unsupported network name yields the configuration error
and leaves the global selection state — and hence what `Params()` and
`pParams()` return — exactly as it was. -/
theorem selectParams_unknown_unchanged (g : GlobalState) (chain : String)
    (h : chain ∉ supportedChains) :
    (SelectParams g chain).1 = Except.error "Unknown chain" ∧
      (SelectParams g chain).2 = g ∧
      Params (SelectParams g chain).2 = Params g ∧
      pParams (SelectParams g chain).2 = pParams g := by
  have hc : CreateChainParams chain = .error "Unknown chain" := by
    rw [CreateChainParams, if_neg h]
  refine ⟨?_, ?_, ?_, ?_⟩ <;> simp [SelectParams, hc]

/-- C6 (witness): selecting the unknown name "ghostnet" while "main" is
active errors out and leaves "main" active. -/
theorem selectParams_unknown_witness :
    ("ghostnet" ∉ supportedChains) ∧
      ((SelectParams ⟨some (baseParams "main")⟩ "ghostnet").1 =
          Except.error "Unknown chain" ∧
        (SelectParams ⟨some (baseParams "main")⟩ "ghostnet").2 =
          ⟨some (baseParams "main")⟩ ∧
        Params (SelectParams ⟨some (baseParams "main")⟩ "ghostnet").2 =
          Params ⟨some (baseParams "main")⟩ ∧
        pParams (SelectParams ⟨some (baseParams "main")⟩ "ghostnet").2 =
          pParams ⟨some (baseParams "main")⟩) := by
  have h : "ghostnet" ∉ supportedChains := by decide
  exact ⟨h,
    selectParams_unknown_unchanged ⟨some (baseParams "main")⟩ "ghostnet" h⟩

/-- Token delimiters of the blacklist-index text format: comma or space. -/
def isDelim (c : Char) : Bool := c = ',' || c = ' '

/-- Splits a character list at delimiters, dropping empty tokens; `acc` holds
the current token reversed. -/
def splitTokensAux : List Char → List Char → List (List Char)
  | [], acc => if acc = [] then [] else [acc.reverse]
  | c :: rest, acc =>
    if isDelim c then
      if acc = [] then splitTokensAux rest []
      else acc.reverse :: splitTokensAux rest []
    else splitTokensAux rest (c :: acc)

/-- The comma/space-separated tokens of the input text. -/
def splitTokens (s : List Char) : List (List Char) :=
  splitTokensAux s []

/-- Decimal accumulation; fails on the first non-digit character. -/
def parseDecAux : List Char → Nat → Option Nat
  | [], acc => some acc
  | c :: rest, acc =>
    if c.isDigit then parseDecAux rest (acc * 10 + (c.toNat - 48)) else none

/-- Parses a non-empty all-digit token as a decimal number. -/
def parseDec : List Char → Option Nat
  | [] => none
  | cs => parseDecAux cs 0

/-- One token: either a single decimal index or an inclusive `start-end`
range; a malformed token contributes nothing. -/
def parseToken (t : List Char) : List Nat :=
  match t.splitOn '-' with
  | [single] => (parseDec single).elim [] (fun n => [n])
  | [lo, hi] =>
    match parseDec lo, parseDec hi with
    | some a, some b => (List.range (b + 1 - a)).map (a + ·)
    | _, _ => []
  | _ => []

/-- Modelled from the spec: `GetAnonIndexFromString` is implemented in
chainparams.cpp, absent from src/.  Spec §4.5/§6: the text is comma/space
separated tokens, each a decimal integer or an inclusive `start-end` range,
parsed into a deduplicated set of uint64 indices (modelled as `Nat`; the
parse performs no wrapping arithmetic).  Malformed tokens are skipped — the
spec leaves skip-vs-fail open, and neither behavior is exercised by the
verified inputs. -/
def GetAnonIndexFromString (str : String) : Finset Nat :=
  ((splitTokens str.data).flatMap parseToken).toFinset

/-- C8: parsing "1,3-5, 9" yields exactly the set of indices 1, 3, 4, 5 and
9, and parsing the empty string yields the empty set. -/
theorem anonIndexFromString_examples :
    GetAnonIndexFromString "1,3-5, 9" = ({1, 3, 4, 5, 9} : Finset Nat) ∧
      GetAnonIndexFromString "" = (∅ : Finset Nat) := by
  constructor <;> decide
